import Mathlib

/-!
Verification development for the vault indexing-and-retrieval engine.

The definitions below are shallow embeddings of the Python sources:
  * `Chunker.*`  embeds `services/indexing/semantic/chunker.py`
  * `Reindex.*`  embeds the per-file loop and result shape of
    `services/processors/rag/processor.py` (`RAGProcessor.run`)
  * `Search.*`   embeds `services/brain_runtime/api/vault.py`
    (`search_vault` and `_text_search`)

External collaborators (the tiktoken tokenizer, `hashlib.sha256`, the YAML
parser, the embedding provider, ChromaDB and the ripgrep subprocess) are
represented by explicit function parameters; everything the repository's own
code computes is embedded as executable Lean definitions.
-/

namespace Chunker

/-- Abstract interface of the tiktoken `cl100k_base` tokenizer used by
`MarkdownChunker` (an external library; the chunker only calls `encode`,
`decode` and takes lengths of encodings). -/
structure Tokenizer where
  encode : String → List Nat
  decode : List Nat → String

/-- The three numeric parameters of `MarkdownChunker.__init__`
(`max_tokens`, `overlap_tokens`, `min_chunk_size`); `vault_root` and
`vault_name` only affect path bookkeeping, which is handled by passing the
vault-relative path to `chunkFile` directly. -/
structure Config where
  maxTokens : Nat
  overlapTokens : Nat
  minChunkSize : Nat
deriving Repr, DecidableEq

/-- The `Chunk` dataclass of `chunker.py`. -/
structure Chunk where
  chunk_id : String
  text : String
  title : String
  file_path : String
  heading_path : String
  para_category : String
  tags : List String
  links : List String
  start_line : Nat
  end_line : Nat
  token_count : Nat
deriving Repr, DecidableEq

/-- Python's `str.strip()`: remove leading and trailing whitespace. -/
def pyStrip (s : String) : String :=
  String.mk
    (((s.data.dropWhile Char.isWhitespace).reverse.dropWhile
      Char.isWhitespace).reverse)

/-- `MarkdownChunker._count_tokens`: `len(self.tokenizer.encode(text))`. -/
def countTokens (tok : Tokenizer) (text : String) : Nat :=
  (tok.encode text).length

/-- The token window `tokens[i : i + max_tokens]` taken by
`MarkdownChunker._split_by_tokens`. -/
def sliceAt (tokens : List Nat) (maxT : Nat) (i : Nat) : List Nat :=
  (tokens.drop i).take maxT

/-- The `while i < len(tokens)` loop of `MarkdownChunker._split_by_tokens`.
`fuel` bounds the number of iterations; the Python loop advances `i` by
`max_tokens - overlap_tokens` each turn, so `fuel = tokens.length` suffices
whenever `overlap_tokens < max_tokens` (the loop does not terminate in Python
otherwise). -/
def splitLoop (tok : Tokenizer) (cfg : Config) (tokens : List Nat)
    (startLine : Nat) : Nat → Nat → List (String × Nat)
  | 0, _ => []
  | fuel + 1, i =>
    if i < tokens.length then
      let chunkText := tok.decode (sliceAt tokens cfg.maxTokens i)
      let rest := splitLoop tok cfg tokens startLine fuel
        (i + (cfg.maxTokens - cfg.overlapTokens))
      if cfg.minChunkSize ≤ (pyStrip chunkText).length then
        (chunkText, startLine + i / 10) :: rest
      else rest
    else []

/-- `MarkdownChunker._split_by_tokens`: split text by tokens with overlap,
returning `(chunk_text, start_line)` pairs.  A window is kept only when
`len(chunk_text.strip()) >= min_chunk_size` (a character-length test), and its
line is approximated as `start_line + i // 10`. -/
def splitByTokens (tok : Tokenizer) (cfg : Config) (text : String)
    (startLine : Nat) : List (String × Nat) :=
  let tokens := tok.encode text
  splitLoop tok cfg tokens startLine tokens.length 0

/-- `str.startswith(prefix)`. -/
def pyStartsWith (s pre : String) : Bool :=
  pre.data.isPrefixOf s.data

/-- `str.endswith(suffix)`. -/
def pyEndsWith (s suf : String) : Bool :=
  suf.data.isSuffixOf s.data

/-- `str.lower()` (ASCII reading). -/
def pyLower (s : String) : String :=
  String.mk (s.data.map Char.toLower)

/-- Splitting scanner for `str.split(sep)` with a nonempty separator; `fuel`
bounds the scan (every step consumes at least one character). -/
def pySplitAux (sep : List Char) : Nat → List Char → List Char →
    List (List Char)
  | 0, acc, _ => [acc.reverse]
  | _ + 1, acc, [] => [acc.reverse]
  | fuel + 1, acc, c :: rest =>
    if sep.isPrefixOf (c :: rest) then
      acc.reverse :: pySplitAux sep fuel [] ((c :: rest).drop sep.length)
    else pySplitAux sep fuel (c :: acc) rest

/-- `str.split(sep)` for a nonempty separator: non-overlapping left-to-right
occurrences. -/
def pySplitOn (s sep : String) : List String :=
  (pySplitAux sep.data (s.data.length + 1) [] s.data).map String.mk

/-- Python's `str.splitlines()` for `\n`-separated text: like splitting on
`"\n"` but yielding no trailing empty line for text ending in a newline, and
`[]` for the empty string. -/
def pySplitLines (s : String) : List String :=
  if s = "" then []
  else if pyEndsWith s "\n" then (pySplitOn s "\n").dropLast
  else pySplitOn s "\n"

/-- The heading test `re.match(r'^(#{1,6})\s+(.+)$', line)` of
`_split_by_headings`: 1–6 `#` characters, at least one whitespace character,
then a nonempty remainder; returns the level and `group(2).strip()`. -/
def headingMatch (line : String) : Option (Nat × String) :=
  let cs := line.data
  let hashes := cs.takeWhile (· == '#')
  let rest := cs.drop hashes.length
  let ws := rest.takeWhile (·.isWhitespace)
  let body := rest.drop ws.length
  if 1 ≤ hashes.length ∧ hashes.length ≤ 6 ∧ ws ≠ [] ∧ body ≠ [] then
    some (hashes.length, pyStrip (String.mk body))
  else none

/-- Heading path of the current section: `" > ".join(heading_stack)` or the
sentinel `"ROOT"` when the stack is empty. -/
def headingPathOf (headingStack : List String) : String :=
  if headingStack ≠ [] then String.intercalate " > " headingStack else "ROOT"

/-- The section saved when a new heading is met (and for the final section):
kept only when the accumulated lines are nonempty and their joined text has
nonblank content. -/
def savedSection (currentSection headingStack : List String)
    (sectionStart : Nat) : List (String × String × Nat) :=
  if currentSection ≠ [] then
    let sectionText := String.intercalate "\n" currentSection
    if pyStrip sectionText ≠ "" then
      [(headingPathOf headingStack, sectionText, sectionStart)]
    else []
  else []

/-- The line loop of `MarkdownChunker._split_by_headings`, carrying the line
index, the accumulated section lines, the heading stack and the current
section's start line. -/
def sbhLoop : List String → Nat → List String → List String → Nat →
    List (String × String × Nat)
  | [], _, currentSection, headingStack, sectionStart =>
    savedSection currentSection headingStack sectionStart
  | line :: restLines, i, currentSection, headingStack, sectionStart =>
    match headingMatch line with
    | some (level, headingText) =>
      savedSection currentSection headingStack sectionStart ++
        sbhLoop restLines (i + 1) []
          (headingStack.take (level - 1) ++ [headingText]) (i + 1)
    | none =>
      sbhLoop restLines (i + 1) (currentSection ++ [line]) headingStack
        sectionStart

/-- `MarkdownChunker._split_by_headings`: split content by markdown headings
into `(heading_path, section_text, start_line)` triples. -/
def splitByHeadings (content : String) : List (String × String × Nat) :=
  sbhLoop (pySplitLines content) 0 [] [] 0

/-- The `tags` entry of the YAML frontmatter as `_extract_tags` consumes it:
absent, a single string, or a list of strings. -/
inductive FmTags where
  | absent
  | str (s : String)
  | list (l : List String)
deriving Repr, DecidableEq

/-- `MarkdownChunker._parse_frontmatter`.  `yaml` stands for the external
`yaml.safe_load` restricted to the `tags` field; `none` represents a parse
exception, in which case (as in the `except: pass` branch) the content is
returned unchanged with empty metadata. -/
def parseFrontmatter (yaml : String → Option FmTags) (content : String) :
    String × FmTags :=
  if pyStartsWith content "---" then
    match pySplitOn content "---" with
    | _ :: p1 :: p2 :: ps =>
      match yaml p1 with
      | some tags => (String.intercalate "---" (p2 :: ps), tags)
      | none => (content, .absent)
    | _ => (content, .absent)
  else (content, .absent)

/-- Characters matched by `\w` or `-` in the inline-tag pattern `#[\w\-]+`
(ASCII reading of `\w`). -/
def isTagChar (c : Char) : Bool :=
  c.isAlphanum || c == '_' || c == '-'

/-- Scanner for `re.findall(r'#[\w\-]+', content)`; `fuel` bounds the scan
(every step consumes at least one character, so the input length suffices). -/
def inlineTagsAux : Nat → List Char → List String
  | 0, _ => []
  | _ + 1, [] => []
  | fuel + 1, c :: rest =>
    if c == '#' then
      let run := rest.takeWhile isTagChar
      if run ≠ [] then
        String.mk ('#' :: run) :: inlineTagsAux fuel (rest.drop run.length)
      else inlineTagsAux fuel rest
    else inlineTagsAux fuel rest

/-- `re.findall(r'#[\w\-]+', content)`: scan for `#` followed by a maximal
nonempty run of tag characters; matches are non-overlapping and scanning
resumes after each match. -/
def inlineTags (cs : List Char) : List String :=
  inlineTagsAux cs.length cs

/-- Frontmatter tag normalization of `_extract_tags`: prefix `#` when absent. -/
def normalizeFmTag (t : String) : String :=
  if Chunker.pyStartsWith t "#" then t else "#" ++ t

/-- The frontmatter-derived tags of `_extract_tags` (a string contributes one
tag; a list contributes its truthy elements). -/
def fmTagList : FmTags → List String
  | .absent => []
  | .str s => [normalizeFmTag s]
  | .list l => (l.filter (· ≠ "")).map normalizeFmTag

/-- `MarkdownChunker._extract_tags`: the union of frontmatter tags and inline
`#tags`, deduplicated (a Python `set`) and sorted lexicographically by code
points (`sorted(...)`; the comparison is phrased on the character lists,
which agrees with the string order). -/
def extractTags (fm : FmTags) (content : String) : List String :=
  ((fmTagList fm ++ inlineTags content.data).dedup).insertionSort
    (fun a b => ¬ b.data < a.data)

/-- Scanner for `re.findall(r'\[\[([^\]]+)\]\]', text)`: at `[[`, take a
nonempty run without `]` closed by `]]` (resuming after the match), otherwise
resume one character further, as the regex engine does.  `fuel` bounds the
scan (every step consumes at least one character). -/
def wikiLinksAux : Nat → List Char → List String
  | 0, _ => []
  | _ + 1, [] => []
  | fuel + 1, '[' :: '[' :: rest =>
    let run := rest.takeWhile (· ≠ ']')
    match rest.drop run.length with
    | ']' :: ']' :: rest2 =>
      if run ≠ [] then String.mk run :: wikiLinksAux fuel rest2
      else wikiLinksAux fuel ('[' :: rest)
    | _ => wikiLinksAux fuel ('[' :: rest)
  | fuel + 1, _ :: rest => wikiLinksAux fuel rest

/-- `MarkdownChunker._extract_links`:
`re.findall(r'\[\[([^\]]+)\]\]', text)` followed by `list(set(...))`. -/
def extractLinks (text : String) : List String :=
  (wikiLinksAux text.data.length text.data).dedup

/-- Boolean infix test on lists: `sub` occurs contiguously in `l`. -/
def listInfix (sub l : List Char) : Bool :=
  (List.range (l.length + 1)).any fun i => sub.isPrefixOf (l.drop i)

/-- Boolean substring test (`sub in s` in Python). -/
def strContains (s sub : String) : Bool :=
  listInfix sub.data s.data

/-- `MarkdownChunker._detect_para_category`: first match in a fixed, ordered
rule table over the lowercased path, else `UNKNOWN`. -/
def detectParaCategory (path : String) : String :=
  let p := pyLower path
  if strContains p "01-projects" then "PROJECT"
  else if strContains p "02-areas" then "AREA"
  else if strContains p "03-resources" then "RESOURCE"
  else if strContains p "04-archive" then "ARCHIVE"
  else if strContains p "00-inbox" then "INBOX"
  else "UNKNOWN"

/-- `pathlib.PurePath.stem` on a name: the name minus its last suffix, where
a leading dot or a trailing dot does not start a suffix. -/
def pyStemName (name : String) : String :=
  let cs := name.data
  match (cs.reverse.findIdx? (· == '.')) with
  | some j =>
    let i := cs.length - 1 - j
    if 0 < i ∧ i < cs.length - 1 then String.mk (cs.take i) else name
  | none => name

/-- `pathlib.Path(p).stem`: stem of the final path component. -/
def pyStem (p : String) : String :=
  pyStemName ((pySplitOn p "/").getLastD "")

/-- `MarkdownChunker._generate_chunk_id`: the key is
`f"{path}|{heading}|{start_line}"`; `hashHex16` stands for the external
`hashlib.sha256(...).hexdigest()[:16]`. -/
def generateChunkId (hashHex16 : String → String) (path heading : String)
    (startLine : Nat) : String :=
  hashHex16 (path ++ "|" ++ heading ++ "|" ++ toString startLine)

/-- `section_text.count('\n')`. -/
def countNewlines (s : String) : Nat :=
  s.data.count '\n'

/-- The body of the per-section loop in `MarkdownChunker.chunk_file`: emit one
chunk when the section fits (dropping it when below the token floor), else
token-split it. -/
def sectionChunks (tok : Tokenizer) (hashHex16 : String → String)
    (cfg : Config) (relativePath title paraCategory : String)
    (tags : List String) (sec : String × String × Nat) : List Chunk :=
  let headingPath := sec.1
  let sectionText := sec.2.1
  let startLine := sec.2.2
  let tokenCount := countTokens tok sectionText
  if tokenCount ≤ cfg.maxTokens then
    if cfg.minChunkSize ≤ tokenCount then
      [{ chunk_id := generateChunkId hashHex16 relativePath headingPath startLine
         text := pyStrip sectionText
         title := title
         file_path := relativePath
         heading_path := headingPath
         para_category := paraCategory
         tags := tags
         links := extractLinks sectionText
         start_line := startLine
         end_line := startLine + countNewlines sectionText
         token_count := tokenCount }]
    else []
  else
    (splitByTokens tok cfg sectionText startLine).map fun sub =>
      { chunk_id := generateChunkId hashHex16 relativePath headingPath sub.2
        text := pyStrip sub.1
        title := title
        file_path := relativePath
        heading_path := headingPath
        para_category := paraCategory
        tags := tags
        links := extractLinks sub.1
        start_line := sub.2
        end_line := sub.2 + countNewlines sub.1
        token_count := countTokens tok sub.1 }

/-- `MarkdownChunker.chunk_file` on the decoded file content.  The file read
(with its lossy-decode fallback) and the `relative_to(vault_root)` path
computation are filesystem operations; the vault-relative path and the raw
text are taken as inputs. -/
def chunkFile (tok : Tokenizer) (hashHex16 : String → String)
    (yaml : String → Option FmTags) (cfg : Config)
    (relativePath : String) (rawContent : String) : List Chunk :=
  let parsed := parseFrontmatter yaml rawContent
  let content := parsed.1
  let title := pyStem relativePath
  let paraCategory := detectParaCategory relativePath
  let tags := extractTags parsed.2 content
  (splitByHeadings content).flatMap
    (sectionChunks tok hashHex16 cfg relativePath title paraCategory tags)

end Chunker

namespace Reindex

/-- The metric fields reported by `RAGProcessor.run` (the nested
`collection_stats` map comes from the vector store and is omitted). -/
structure RunMetrics where
  filesScanned : Nat
  filesChunked : Nat
  totalChunks : Nat
  chunksIndexed : Nat
  chunkErrors : Nat
deriving Repr, DecidableEq

/-- The shape of `ProcessorResult` relevant to the run outcome (timestamps and
output path are IO bookkeeping). -/
structure RunResult where
  success : Bool
  error : Option String
  metrics : Option RunMetrics
deriving Repr, DecidableEq

/-- The per-file `for file_path in md_files` loop of `RAGProcessor.run`:
`chunkFn` stands for `chunker.chunk_file` on one discovered file, with
`Except.error` representing a raised exception.  Returns
`(all_chunks, files_chunked, chunk_errors)`. -/
def chunkLoop {α : Type} (chunkFn : α → Except String (List Chunker.Chunk)) :
    List α → List Chunker.Chunk × Nat × Nat
  | [] => ([], 0, 0)
  | f :: fs =>
    let rest := chunkLoop chunkFn fs
    match chunkFn f with
    | .ok chunks =>
      if chunks ≠ [] then (chunks ++ rest.1, rest.2.1 + 1, rest.2.2)
      else rest
    | .error _ => (rest.1, rest.2.1, rest.2.2 + 1)

/-- `RAGProcessor.run` after file discovery: chunk every file (catching
per-file failures), then index all collected chunks in one call.  `indexFn`
stands for `searcher.index_chunks` — which embeds every chunk text via the
embedding model before upserting — with `Except.error` representing a raised
exception, which is caught by the outer `try` of `run` and turned into a
`ProcessorResult(success=False, error=...)`. -/
def ragRun {α : Type} (chunkFn : α → Except String (List Chunker.Chunk))
    (indexFn : List Chunker.Chunk → Except String Nat)
    (files : List α) : RunResult :=
  let acc := chunkLoop chunkFn files
  match indexFn acc.1 with
  | .ok indexed =>
    { success := true
      error := none
      metrics := some
        { filesScanned := files.length
          filesChunked := acc.2.1
          totalChunks := acc.1.length
          chunksIndexed := indexed
          chunkErrors := acc.2.2 } }
  | .error e =>
    { success := false, error := some e, metrics := none }

end Reindex

namespace Search

/-- The `SearchResult` pydantic model of `api/vault.py`.  Scores are floats
used only opaquely by the orchestrator, so the score type is a parameter. -/
structure SearchResult (Score : Type) where
  chunk_id : Option String
  score : Option Score
  text : String
  title : String
  file_path : String
  heading_path : Option String
  para_category : Option String
  tags : List String
  links : List String
  obsidian_uri : String
  start_line : Option Nat
  end_line : Option Nat
  token_count : Option Nat
  search_type : String
deriving DecidableEq

/-- The `SearchResponse` pydantic model. -/
structure SearchResponse (Score : Type) where
  query : String
  results : List (SearchResult Score)
  count : Nat
  search_type : String
deriving DecidableEq

/-- `fastapi.HTTPException` as raised by `search_vault`. -/
structure HTTPError where
  status : Nat
  detail : String
deriving Repr, DecidableEq

/-- The argument tuple `search_vault` passes to `_semantic_search`. -/
structure SemanticArgs (Score : Type) where
  query : String
  topK : Nat
  minScore : Score
  paraCategory : Option String
  tags : Option (List String)
  pathContains : Option String

/-- `tags.split(",") if tags else None` (`None` and the empty string are both
falsy). -/
def tagListOf (tags : Option String) : Option (List String) :=
  match tags with
  | some t => if t ≠ "" then some (Chunker.pySplitOn t ",") else none
  | none => none

/-- `search_vault`: mode dispatch of the hybrid query orchestrator.
`semantic` stands for `_semantic_search` (which catches its own failures and
returns `[]`, so it is a total function into result lists) and `textSearch`
for `_text_search` applied to `(query, top_k, path_contains)`.  An
`HTTPException` is modelled as `Except.error`. -/
def searchVault {Score : Type}
    (semantic : SemanticArgs Score → List (SearchResult Score))
    (textSearch : String → Nat → Option String → List (SearchResult Score))
    (query searchType : String) (topK : Nat) (minScore : Score)
    (paraCategory tags pathContains : Option String) :
    Except HTTPError (SearchResponse Score) :=
  let tagList := tagListOf tags
  let textBranch : Except HTTPError (SearchResponse Score) :=
    if searchType == "text" || searchType == "hybrid" then
      let results := textSearch query topK pathContains
      .ok { query := query, results := results, count := results.length
            search_type := "text" }
    else
      .error { status := 400, detail := "Invalid search_type: " ++ searchType }
  if searchType == "semantic" || searchType == "hybrid" then
    let results := semantic
      { query := query, topK := topK, minScore := minScore
        paraCategory := paraCategory, tags := tagList
        pathContains := pathContains }
    if !results.isEmpty || searchType == "semantic" then
      .ok { query := query, results := results, count := results.length
            search_type := "semantic" }
    else
      textBranch
  else
    textBranch

/-- One parsed line of ripgrep's `--json` output as `_text_search` consumes
it: the event type, `data.path.text`, `data.line_number` and
`data.lines.text` (JSON parsing is external; undecodable lines are skipped
before this point). -/
structure RgEvent where
  eventType : String
  path : String
  lineNumber : Nat
  linesText : String
deriving Repr, DecidableEq

/-- Case-insensitive substring test
(`path_contains.lower() in file_path.lower()`). -/
def lowerContains (hay needle : String) : Bool :=
  Chunker.strContains (Chunker.pyLower hay) (Chunker.pyLower needle)

/-- The path filter of `_text_search`: a match is rejected when a truthy
`path_contains` is given and is not a case-insensitive substring of the
match's path. -/
def pathFilterRejects (pathContains : Option String) (fp : String) : Bool :=
  match pathContains with
  | some pcs => pcs ≠ "" && !lowerContains fp pcs
  | none => false

/-- `str(Path(file_path).relative_to(vault_path))`, with the `ValueError`
fallback keeping the original path. -/
def relPathOf (vault fp : String) : String :=
  if (vault ++ "/").data.isPrefixOf fp.data then fp.drop (vault.length + 1)
  else fp

/-- Hexadecimal digit (uppercase, as `urllib.parse.quote` emits). -/
def hexDigit (n : Nat) : Char :=
  if n < 10 then Char.ofNat (48 + n) else Char.ofNat (55 + n)

/-- Bytes `urllib.parse.quote` leaves unescaped (unreserved characters plus
the default `safe='/'`). -/
def quoteSafe (b : UInt8) : Bool :=
  (65 ≤ b.toNat && b.toNat ≤ 90) || (97 ≤ b.toNat && b.toNat ≤ 122) ||
  (48 ≤ b.toNat && b.toNat ≤ 57) ||
  b.toNat == 45 || b.toNat == 46 || b.toNat == 95 || b.toNat == 126 ||
  b.toNat == 47

/-- `urllib.parse.quote` over the UTF-8 bytes of a string. -/
def pyQuote (s : String) : String :=
  s.toUTF8.toList.foldl
    (fun acc b =>
      if quoteSafe b then acc.push (Char.ofNat b.toNat)
      else acc ++ String.mk ['%', hexDigit (b.toNat / 16), hexDigit (b.toNat % 16)])
    ""

/-- The `SearchResult` `_text_search` builds from one kept ripgrep match. -/
def mkTextResult (Score : Type) (vault : String) (ev : RgEvent) :
    SearchResult Score :=
  let relPath := relPathOf vault ev.path
  { chunk_id := none
    score := none
    text := Chunker.pyStrip ev.linesText
    title := Chunker.pyStem ev.path
    file_path := relPath
    heading_path := none
    para_category := none
    tags := []
    links := []
    obsidian_uri := "obsidian://open?vault=Obsidian-Private&file=" ++
      pyQuote relPath
    start_line := some ev.lineNumber
    end_line := none
    token_count := none
    search_type := "text" }

/-- The `for line in result.stdout...` loop of `_text_search`, carrying the
`seen_files` set and the accumulated results; stops as soon as `top_k`
results have been collected. -/
def textLoop (Score : Type) (vault : String) (pathContains : Option String)
    (topK : Nat) : List RgEvent → List String → List (SearchResult Score) →
    List (SearchResult Score)
  | [], _, acc => acc
  | ev :: rest, seen, acc =>
    if ev.eventType ≠ "match" then
      textLoop Score vault pathContains topK rest seen acc
    else if pathFilterRejects pathContains ev.path then
      textLoop Score vault pathContains topK rest seen acc
    else if ev.path ∈ seen then
      textLoop Score vault pathContains topK rest seen acc
    else
      let acc' := acc ++ [mkTextResult Score vault ev]
      if topK ≤ acc'.length then acc'
      else textLoop Score vault pathContains topK rest (ev.path :: seen) acc'

/-- `_text_search` on the parsed ripgrep events for a query (the subprocess
invocation, its timeout/exit-code handling — which yield `[]` — and JSON
parsing are external). -/
def textSearchRun (Score : Type) (vault : String)
    (pathContains : Option String) (topK : Nat) (events : List RgEvent) :
    List (SearchResult Score) :=
  textLoop Score vault pathContains topK events [] []

end Search

namespace Concrete

/-- A concrete tokenizer with one token per character, used to instantiate
the abstract tokenizer interface on concrete inputs. -/
def charTok : Chunker.Tokenizer :=
  { encode := fun s => s.data.map Char.toNat
    decode := fun ts => String.mk (ts.map Char.ofNat) }

/-- Encoding step of a tokenizer whose tokens each cover two characters. -/
def pairEncode : List Char → List Nat
  | a :: b :: rest => (a.toNat * 1114112 + b.toNat) :: pairEncode rest
  | [a] => [a.toNat]
  | [] => []

/-- Decoding step inverse to `pairEncode`. -/
def pairDecode (ts : List Nat) : List Char :=
  ts.flatMap fun t =>
    if t < 1114112 then [Char.ofNat t]
    else [Char.ofNat (t / 1114112), Char.ofNat (t % 1114112)]

/-- A concrete tokenizer whose tokens each decode to two characters (as real
BPE tokens routinely cover several characters). -/
def pairTok : Chunker.Tokenizer :=
  { encode := fun s => pairEncode s.data
    decode := fun ts => String.mk (pairDecode ts) }

/-- A concrete stand-in for the truncated sha256 hex digest (the identity on
keys): the chunk-id theorems hold for every hash function. -/
def idHash : String → String := id

/-- A concrete stand-in for `yaml.safe_load` on files without frontmatter. -/
def noYaml : String → Option Chunker.FmTags := fun _ => none

/-- The production chunker configuration
(`max_tokens=800, overlap_tokens=120, min_chunk_size=50`, as passed by
`RAGProcessor.run`). -/
def defaultCfg : Chunker.Config :=
  { maxTokens := 800, overlapTokens := 120, minChunkSize := 50 }

/-- A 2800-character document; under `pairTok` it is a single 1400-token
section. -/
def longText : String := String.mk (List.replicate 2800 'a')

/-- A 2000-character document; under `charTok` it is a single 2000-token
section. -/
def scenCText : String := String.mk (List.replicate 2000 'a')

/-- A concrete semantic search result. -/
def semResult : Search.SearchResult Nat :=
  { chunk_id := some "c1", score := some 9, text := "sem", title := "t"
    file_path := "01-PROJECTS/a.md", heading_path := some "H"
    para_category := some "PROJECT", tags := ["#p"], links := []
    obsidian_uri := "obsidian://open?vault=Obsidian-Private&file=a.md"
    start_line := some 1, end_line := some 2, token_count := some 60
    search_type := "semantic" }

/-- A concrete parsed ripgrep match event. -/
def rgEv1 : Search.RgEvent :=
  { eventType := "match", path := "/v/Obsidian-Private/notes/a.md"
    lineNumber := 3, linesText := " hit one " }

/-- A second match event in the same file as `rgEv1`. -/
def rgEv2 : Search.RgEvent :=
  { eventType := "match", path := "/v/Obsidian-Private/notes/a.md"
    lineNumber := 9, linesText := "hit two" }

/-- A match event in a different file. -/
def rgEv3 : Search.RgEvent :=
  { eventType := "match", path := "/v/Obsidian-Private/b.md"
    lineNumber := 1, linesText := "hit three" }

/-- A concrete chunk used to exercise the reindex run. -/
def aChunk : Chunker.Chunk :=
  { chunk_id := "f.md|ROOT|0", text := "body", title := "f"
    file_path := "f.md", heading_path := "ROOT", para_category := "UNKNOWN"
    tags := [], links := [], start_line := 0, end_line := 0
    token_count := 60 }

/-- The single-section chunk produced from the five-character document
`"hello"` under `charTok` with `max_tokens=8, overlap=2, min_chunk_size=3`. -/
def wChunkA : Chunker.Chunk :=
  { chunk_id := "f.md|ROOT|0", text := "hello", title := "f"
    file_path := "f.md", heading_path := "ROOT", para_category := "UNKNOWN"
    tags := [], links := [], start_line := 0, end_line := 0
    token_count := 5 }

/-- The single-section chunk produced from the document `"okay"` under
`pairTok` with `max_tokens=8, overlap=2, min_chunk_size=1`. -/
def wChunkB : Chunker.Chunk :=
  { chunk_id := "f.md|ROOT|0", text := "okay", title := "f"
    file_path := "f.md", heading_path := "ROOT", para_category := "UNKNOWN"
    tags := [], links := [], start_line := 0, end_line := 0
    token_count := 2 }

/-- A per-file chunking function failing on file `1` only. -/
def wChunkFn : Nat → Except String (List Chunker.Chunk) :=
  fun f => if f = 1 then .error "chunk failure" else .ok [aChunk]

/-- An indexing function that succeeds, reporting the number of chunks. -/
def wIndexFn : List Chunker.Chunk → Except String Nat :=
  fun cs => .ok cs.length

/-- Frontmatter tag metadata used in concrete tag-extraction runs. -/
def wYaml : String → Option Chunker.FmTags := fun _ => some (.list ["p"])

/-- A raw document with a frontmatter block and one inline tag. -/
def wRawC : String := "---\nx\n---\nbody #a"

/-- The single chunk produced from `wRawC` under `charTok` with
`max_tokens=8, overlap=2, min_chunk_size=3`. -/
def wChunkC : Chunker.Chunk :=
  { chunk_id := "f.md|ROOT|0", text := "body #a", title := "f"
    file_path := "f.md", heading_path := "ROOT", para_category := "UNKNOWN"
    tags := ["#a", "#p"], links := [], start_line := 0, end_line := 1
    token_count := 8 }

/-- The first token-split sub-chunk of the oversized document `"abcde"` under
`charTok` with `max_tokens=4, overlap=2, min_chunk_size=1`. -/
def wChunkE : Chunker.Chunk :=
  { chunk_id := "f.md|ROOT|0", text := "abcd", title := "f"
    file_path := "f.md", heading_path := "ROOT", para_category := "UNKNOWN"
    tags := [], links := [], start_line := 0, end_line := 0
    token_count := 4 }

end Concrete

namespace Chunker

/-- Two token lists share at least `T` tokens of content: some run of at
least `T` token positions forms both a suffix of the first window and a
prefix of the second. -/
def SharesTokens (a b : List Nat) (T : Nat) : Prop :=
  ∃ k, T ≤ k ∧ k ≤ a.length ∧ k ≤ b.length ∧ a.drop (a.length - k) = b.take k

/-- The adjacent (consecutive) pairs of a list. -/
def adjPairs {α : Type} (l : List α) : List (α × α) :=
  l.zip l.tail

end Chunker

/-- Helper: in hybrid mode with a nonempty semantic result set,
`search_vault` returns it tagged "semantic". -/
theorem searchVault_hybrid_nonempty {Score : Type}
    (semantic : Search.SemanticArgs Score → List (Search.SearchResult Score))
    (textSearch : String → Nat → Option String → List (Search.SearchResult Score))
    (q : String) (k : Nat) (ms : Score) (pc tags pathC : Option String)
    (h : semantic { query := q, topK := k, minScore := ms, paraCategory := pc
                    tags := Search.tagListOf tags, pathContains := pathC } ≠ []) :
    Search.searchVault semantic textSearch q "hybrid" k ms pc tags pathC =
      .ok { query := q
            results := semantic { query := q, topK := k, minScore := ms
                                  paraCategory := pc
                                  tags := Search.tagListOf tags
                                  pathContains := pathC }
            count := (semantic { query := q, topK := k, minScore := ms
                                 paraCategory := pc
                                 tags := Search.tagListOf tags
                                 pathContains := pathC }).length
            search_type := "semantic" } := by
  cases hres : semantic ⟨q, k, ms, pc, Search.tagListOf tags, pathC⟩ with
  | nil => exact absurd hres h
  | cons a l => simp [Search.searchVault, hres]

/-- Helper: in hybrid mode with an empty semantic result set, `search_vault`
returns the lexical adapter's results tagged "text". -/
theorem searchVault_hybrid_empty {Score : Type}
    (semantic : Search.SemanticArgs Score → List (Search.SearchResult Score))
    (textSearch : String → Nat → Option String → List (Search.SearchResult Score))
    (q : String) (k : Nat) (ms : Score) (pc tags pathC : Option String)
    (h : semantic { query := q, topK := k, minScore := ms, paraCategory := pc
                    tags := Search.tagListOf tags, pathContains := pathC } = []) :
    Search.searchVault semantic textSearch q "hybrid" k ms pc tags pathC =
      .ok { query := q
            results := textSearch q k pathC
            count := (textSearch q k pathC).length
            search_type := "text" } := by
  simp [Search.searchVault, h]

/-- C2: in hybrid mode, if the semantic search yields at least one result,
`search_vault` returns exactly that result set with `search_type` "semantic";
if it yields zero results, it returns exactly the lexical adapter's result
set for the same query with `search_type` "text"; the two sets are never
merged. -/
theorem c2_hybrid_fallback {Score : Type}
    (semantic : Search.SemanticArgs Score → List (Search.SearchResult Score))
    (textSearch : String → Nat → Option String → List (Search.SearchResult Score))
    (q : String) (k : Nat) (ms : Score) (pc tags pathC : Option String) :
    (semantic { query := q, topK := k, minScore := ms, paraCategory := pc
                tags := Search.tagListOf tags, pathContains := pathC } ≠ [] →
      Search.searchVault semantic textSearch q "hybrid" k ms pc tags pathC =
        .ok { query := q
              results := semantic { query := q, topK := k, minScore := ms
                                    paraCategory := pc
                                    tags := Search.tagListOf tags
                                    pathContains := pathC }
              count := (semantic { query := q, topK := k, minScore := ms
                                   paraCategory := pc
                                   tags := Search.tagListOf tags
                                   pathContains := pathC }).length
              search_type := "semantic" }) ∧
    (semantic { query := q, topK := k, minScore := ms, paraCategory := pc
                tags := Search.tagListOf tags, pathContains := pathC } = [] →
      Search.searchVault semantic textSearch q "hybrid" k ms pc tags pathC =
        .ok { query := q
              results := textSearch q k pathC
              count := (textSearch q k pathC).length
              search_type := "text" }) :=
  ⟨searchVault_hybrid_nonempty semantic textSearch q k ms pc tags pathC,
   searchVault_hybrid_empty semantic textSearch q k ms pc tags pathC⟩

/-- C2 witness: concrete instantiations of both branches of the hybrid
fallback law. -/
theorem c2_hybrid_fallback_witness :
    Search.searchVault (fun _ => [Concrete.semResult]) (fun _ _ _ => [])
        "q" "hybrid" 8 0 none none none =
      .ok { query := "q", results := [Concrete.semResult], count := 1
            search_type := "semantic" } ∧
    Search.searchVault (fun _ => ([] : List (Search.SearchResult Nat))) (fun _ _ _ => [])
        "q" "hybrid" 8 0 none none none =
      .ok { query := "q", results := [], count := 0, search_type := "text" } :=
  ⟨(c2_hybrid_fallback (fun _ => [Concrete.semResult]) (fun _ _ _ => [])
      "q" 8 0 none none none).1 (by simp),
   (c2_hybrid_fallback (fun _ => []) (fun _ _ _ => [])
      "q" 8 0 none none none).2 rfl⟩

/-- C7: every `search_type` outside {"semantic", "text", "hybrid"} is rejected
with an immediate HTTP 400 error; every value inside the set never raises
that error. -/
theorem c7_invalid_mode {Score : Type}
    (semantic : Search.SemanticArgs Score → List (Search.SearchResult Score))
    (textSearch : String → Nat → Option String → List (Search.SearchResult Score))
    (q st : String) (k : Nat) (ms : Score) (pc tags pathC : Option String) :
    (st ≠ "semantic" → st ≠ "text" → st ≠ "hybrid" →
      Search.searchVault semantic textSearch q st k ms pc tags pathC =
        .error { status := 400, detail := "Invalid search_type: " ++ st }) ∧
    (st = "semantic" ∨ st = "text" ∨ st = "hybrid" →
      ∃ resp, Search.searchVault semantic textSearch q st k ms pc tags pathC =
        .ok resp) := by
  constructor
  · intro h1 h2 h3
    simp [Search.searchVault, h1, h2, h3]
  · rintro (rfl | rfl | rfl)
    · refine ⟨{ query := q
                results := semantic ⟨q, k, ms, pc, Search.tagListOf tags, pathC⟩
                count := (semantic ⟨q, k, ms, pc, Search.tagListOf tags, pathC⟩).length
                search_type := "semantic" }, ?_⟩
      simp [Search.searchVault]
    · refine ⟨{ query := q
                results := textSearch q k pathC
                count := (textSearch q k pathC).length
                search_type := "text" }, ?_⟩
      simp [Search.searchVault]
    · cases hres : semantic ⟨q, k, ms, pc, Search.tagListOf tags, pathC⟩ with
      | nil =>
        exact ⟨_, searchVault_hybrid_empty semantic textSearch q k ms pc tags
          pathC hres⟩
      | cons a l =>
        exact ⟨_, searchVault_hybrid_nonempty semantic textSearch q k ms pc tags
          pathC (by rw [hres]; exact List.cons_ne_nil a l)⟩

/-- C7 witness: a concrete invalid mode is rejected with a 400 error, and a
concrete valid mode succeeds. -/
theorem c7_invalid_mode_witness :
    Search.searchVault (fun _ => ([] : List (Search.SearchResult Nat))) (fun _ _ _ => [])
        "q" "fuzzy" 8 0 none none none =
      .error { status := 400, detail := "Invalid search_type: " ++ "fuzzy" } ∧
    ∃ resp, Search.searchVault (fun _ => ([] : List (Search.SearchResult Nat))) (fun _ _ _ => [])
        "q" "text" 8 0 none none none = .ok resp :=
  ⟨(c7_invalid_mode (fun _ => []) (fun _ _ _ => []) "q" "fuzzy" 8 0
      none none none).1 (by decide) (by decide) (by decide),
   (c7_invalid_mode (fun _ => []) (fun _ _ _ => []) "q" "text" 8 0
      none none none).2 (Or.inr (Or.inl rfl))⟩

/-- C8: when the hybrid fallback runs (semantic yields zero results), only
the path-substring filter is passed to the lexical search — the returned
text-tagged results are `_text_search(query, top_k, path_contains)`, and the
response is unchanged under any change of the `tags` and `para_category`
filters (under which semantic still yields zero results). -/
theorem c8_fallback_ignores_filters {Score : Type}
    (semantic : Search.SemanticArgs Score → List (Search.SearchResult Score))
    (textSearch : String → Nat → Option String → List (Search.SearchResult Score))
    (q : String) (k : Nat) (ms : Score) (pc pc' tags tags' pathC : Option String)
    (h : semantic { query := q, topK := k, minScore := ms, paraCategory := pc
                    tags := Search.tagListOf tags, pathContains := pathC } = [])
    (h' : semantic { query := q, topK := k, minScore := ms, paraCategory := pc'
                     tags := Search.tagListOf tags', pathContains := pathC } = []) :
    Search.searchVault semantic textSearch q "hybrid" k ms pc tags pathC =
      .ok { query := q
            results := textSearch q k pathC
            count := (textSearch q k pathC).length
            search_type := "text" } ∧
    Search.searchVault semantic textSearch q "hybrid" k ms pc' tags' pathC =
      Search.searchVault semantic textSearch q "hybrid" k ms pc tags pathC := by
  refine ⟨searchVault_hybrid_empty semantic textSearch q k ms pc tags pathC h, ?_⟩
  rw [searchVault_hybrid_empty semantic textSearch q k ms pc tags pathC h,
    searchVault_hybrid_empty semantic textSearch q k ms pc' tags' pathC h']

/-- C8 witness: with empty semantic results, a hybrid search requesting a tag
and a category filter returns the unfiltered lexical results, unchanged when
those filters change. -/
theorem c8_fallback_ignores_filters_witness :
    Search.searchVault (fun _ => ([] : List (Search.SearchResult Nat)))
        (fun _ _ _ => [Search.mkTextResult Nat "/v/Obsidian-Private" Concrete.rgEv1])
        "q" "hybrid" 8 0 (some "PROJECT") (some "#p") none =
      .ok { query := "q"
            results := [Search.mkTextResult Nat "/v/Obsidian-Private" Concrete.rgEv1]
            count := 1
            search_type := "text" } ∧
    Search.searchVault (fun _ => ([] : List (Search.SearchResult Nat)))
        (fun _ _ _ => [Search.mkTextResult Nat "/v/Obsidian-Private" Concrete.rgEv1])
        "q" "hybrid" 8 0 none none none =
      Search.searchVault (fun _ => ([] : List (Search.SearchResult Nat)))
        (fun _ _ _ => [Search.mkTextResult Nat "/v/Obsidian-Private" Concrete.rgEv1])
        "q" "hybrid" 8 0 (some "PROJECT") (some "#p") none :=
  ⟨(c8_fallback_ignores_filters (fun _ => [])
      (fun _ _ _ => [Search.mkTextResult Nat "/v/Obsidian-Private" Concrete.rgEv1])
      "q" 8 0 (some "PROJECT") none (some "#p") none none rfl rfl).1,
   (c8_fallback_ignores_filters (fun _ => [])
      (fun _ _ _ => [Search.mkTextResult Nat "/v/Obsidian-Private" Concrete.rgEv1])
      "q" 8 0 (some "PROJECT") none (some "#p") none none rfl rfl).2⟩

/-- Helper: the per-file loop of `RAGProcessor.run` collects the chunks of the
successful files in order, counts a file as chunked when it yields a nonempty
chunk list, and counts one error per raised per-file exception. -/
theorem chunkLoop_spec {α : Type}
    (chunkFn : α → Except String (List Chunker.Chunk)) (files : List α) :
    Reindex.chunkLoop chunkFn files =
      (files.flatMap (fun f => ((chunkFn f).toOption.getD [])),
       files.countP (fun f => !((chunkFn f).toOption.getD []).isEmpty),
       files.countP (fun f => (chunkFn f).toOption.isNone)) := by
  induction files with
  | nil => rfl
  | cons f fs ih =>
    simp only [Reindex.chunkLoop, ih, List.flatMap_cons, List.countP_cons]
    cases hf : chunkFn f with
    | ok chunks =>
      cases chunks with
      | nil => simp [hf, Except.toOption]
      | cons a l => simp [hf, Except.toOption]
    | error e => simp [hf, Except.toOption]

/-- C4 (amended): per-file chunking failures during a reindex run are caught,
counted in `chunk_errors`, and skip only that file; when the single
post-loop indexing (embedding) call succeeds, the run reports success with
that error count; an embedding failure, which is not per-file, makes the
whole run report `success=False`. -/
theorem c4_per_file_failures {α : Type}
    (chunkFn : α → Except String (List Chunker.Chunk))
    (indexFn : List Chunker.Chunk → Except String Nat) (files : List α) :
    ((Reindex.chunkLoop chunkFn files).2.2 =
        files.countP (fun f => (chunkFn f).toOption.isNone)) ∧
    ((Reindex.chunkLoop chunkFn files).1 =
        files.flatMap fun f => ((chunkFn f).toOption.getD [])) ∧
    (∀ n, indexFn (Reindex.chunkLoop chunkFn files).1 = .ok n →
      Reindex.ragRun chunkFn indexFn files =
        { success := true
          error := none
          metrics := some
            { filesScanned := files.length
              filesChunked := (Reindex.chunkLoop chunkFn files).2.1
              totalChunks := (Reindex.chunkLoop chunkFn files).1.length
              chunksIndexed := n
              chunkErrors :=
                files.countP (fun f => (chunkFn f).toOption.isNone) } }) ∧
    (∀ e, indexFn (Reindex.chunkLoop chunkFn files).1 = .error e →
      Reindex.ragRun chunkFn indexFn files =
        { success := false, error := some e, metrics := none }) := by
  have hs := chunkLoop_spec chunkFn files
  refine ⟨by rw [hs], by rw [hs], ?_, ?_⟩
  · intro n h
    simp only [Reindex.ragRun, h, hs]
    rw [hs] at h
    simp [h]
  · intro e h
    simp only [Reindex.ragRun, h, hs]
    rw [hs] at h
    simp [h]

/-- C4 witness: a three-file run whose middle file fails to chunk still
succeeds, reporting `files_scanned=3, files_chunked=2, chunk_errors=1`. -/
theorem c4_per_file_failures_witness :
    Reindex.ragRun Concrete.wChunkFn Concrete.wIndexFn [0, 1, 2] =
      { success := true
        error := none
        metrics := some
          { filesScanned := 3, filesChunked := 2, totalChunks := 2
            chunksIndexed := 2, chunkErrors := 1 } } := by
  have h := (c4_per_file_failures Concrete.wChunkFn Concrete.wIndexFn
    [0, 1, 2]).2.2.1 2 rfl
  rw [h]
  decide

/-- C4 counterexample: the claim "no per-file chunking or embedding failure
ever aborts the run" is false for embedding failures — embedding happens in
one `index_chunks` call after the loop, and its failure makes the run report
`success=False` instead of skipping a file. -/
theorem c4_embedding_failure_aborts :
    Reindex.ragRun (fun _ : Nat => .ok [Concrete.aChunk])
        (fun _ => .error "embedding failure") [0] =
      { success := false, error := some "embedding failure"
        metrics := none } := by
  decide

/-- Helper: stripping the vault prefix is injective on paths under the vault
(the `seen_files` dedup key is the absolute path, the reported `file_path` the
relative one). -/
theorem relPathOf_injOn (vault p q : String)
    (hp : (vault ++ "/").data.isPrefixOf p.data)
    (hq : (vault ++ "/").data.isPrefixOf q.data)
    (h : Search.relPathOf vault p = Search.relPathOf vault q) : p = q := by
  unfold Search.relPathOf at h
  rw [if_pos hp, if_pos hq] at h
  obtain ⟨tp, htp⟩ := List.isPrefixOf_iff_prefix.mp hp
  obtain ⟨tq, htq⟩ := List.isPrefixOf_iff_prefix.mp hq
  have hdp : p.data = (vault ++ "/").data ++ tp := htp.symm
  have hdq : q.data = (vault ++ "/").data ++ tq := htq.symm
  have hlen : vault.length + 1 = (vault ++ "/").data.length := by
    rw [String.data_append, List.length_append]
    rfl
  have h2 := congrArg String.data h
  rw [String.data_drop, String.data_drop, hdp, hdq, hlen, List.drop_left,
    List.drop_left] at h2
  apply String.ext_iff.mpr
  rw [hdp, hdq, h2]

/-- Helper: the `_text_search` loop never returns more than `top_k` results
when entered with fewer than `top_k` accumulated. -/
theorem textLoop_length {Score : Type} (vault : String) (pc : Option String)
    (topK : Nat) (evs : List Search.RgEvent) :
    ∀ seen acc, acc.length < topK →
      (Search.textLoop Score vault pc topK evs seen acc).length ≤ topK := by
  induction evs with
  | nil =>
    intro seen acc hlt
    simpa [Search.textLoop] using Nat.le_of_lt hlt
  | cons ev rest ih =>
    intro seen acc hlt
    simp only [Search.textLoop]
    split_ifs with h1 h2 h3 h4
    · exact ih seen acc hlt
    · exact ih seen acc hlt
    · exact ih seen acc hlt
    · simpa using hlt
    · refine ih _ _ ?_
      simp only [List.length_append, List.length_cons, List.length_nil] at h4 ⊢
      omega

/-- Helper: every result produced by the `_text_search` loop was in the
accumulator or built from a kept "match" event of the remaining input. -/
theorem textLoop_source {Score : Type} (vault : String) (pc : Option String)
    (topK : Nat) (evs : List Search.RgEvent) :
    ∀ seen acc r, r ∈ Search.textLoop Score vault pc topK evs seen acc →
      r ∈ acc ∨ ∃ ev ∈ evs, ev.eventType = "match" ∧
        Search.pathFilterRejects pc ev.path = false ∧
        r = Search.mkTextResult Score vault ev := by
  induction evs with
  | nil =>
    intro seen acc r hr
    simp only [Search.textLoop] at hr
    exact Or.inl hr
  | cons ev rest ih =>
    intro seen acc r hr
    simp only [Search.textLoop] at hr
    split_ifs at hr with h1 h2 h3 h4
    · rcases ih seen acc r hr with h | ⟨e, he, hm, hf, hb⟩
      · exact Or.inl h
      · exact Or.inr ⟨e, List.mem_cons_of_mem ev he, hm, hf, hb⟩
    · rcases ih seen acc r hr with h | ⟨e, he, hm, hf, hb⟩
      · exact Or.inl h
      · exact Or.inr ⟨e, List.mem_cons_of_mem ev he, hm, hf, hb⟩
    · rcases ih seen acc r hr with h | ⟨e, he, hm, hf, hb⟩
      · exact Or.inl h
      · exact Or.inr ⟨e, List.mem_cons_of_mem ev he, hm, hf, hb⟩
    · rcases List.mem_append.mp hr with h | h
      · exact Or.inl h
      · refine Or.inr ⟨ev, List.mem_cons_self ev rest, ?_, ?_, ?_⟩
        · simpa using h1
        · simpa using h2
        · simpa using h
    · rcases ih _ _ r hr with h | ⟨e, he, hm, hf, hb⟩
      · rcases List.mem_append.mp h with h | h
        · exact Or.inl h
        · refine Or.inr ⟨ev, List.mem_cons_self ev rest, ?_, ?_, ?_⟩
          · simpa using h1
          · simpa using h2
          · simpa using h
      · exact Or.inr ⟨e, List.mem_cons_of_mem ev he, hm, hf, hb⟩

/-- Helper: the `_text_search` loop preserves pairwise-distinct reported
`file_path`s, given that every path under consideration lies under the vault
(as ripgrep, invoked on the vault root, guarantees). -/
theorem textLoop_pairwise {Score : Type} (vault : String) (pc : Option String)
    (topK : Nat) (evs : List Search.RgEvent) :
    ∀ seen (acc : List (Search.SearchResult Score)),
      (∀ p ∈ seen, (vault ++ "/").data.isPrefixOf p.data) →
      (∀ ev ∈ evs, (vault ++ "/").data.isPrefixOf ev.path.data) →
      (∀ r ∈ acc, ∃ p ∈ seen, r.file_path = Search.relPathOf vault p) →
      acc.Pairwise (fun a b => a.file_path ≠ b.file_path) →
      (Search.textLoop Score vault pc topK evs seen acc).Pairwise
        (fun a b => a.file_path ≠ b.file_path) := by
  induction evs with
  | nil =>
    intro seen acc _ _ _ hpair
    simpa [Search.textLoop] using hpair
  | cons ev rest ih =>
    intro seen acc hseen hevs hacc hpair
    have hev : (vault ++ "/").data.isPrefixOf ev.path.data :=
      hevs ev (List.mem_cons_self ev rest)
    have hrest : ∀ e ∈ rest, (vault ++ "/").data.isPrefixOf e.path.data :=
      fun e he => hevs e (List.mem_cons_of_mem ev he)
    simp only [Search.textLoop]
    split_ifs with h1 h2 h3 h4
    · exact ih seen acc hseen hrest hacc hpair
    · exact ih seen acc hseen hrest hacc hpair
    · exact ih seen acc hseen hrest hacc hpair
    · -- immediate return of acc ++ [mkTextResult ev]
      refine List.pairwise_append.mpr ⟨hpair, List.pairwise_singleton _ _, ?_⟩
      intro a ha b hb
      rcases List.mem_singleton.mp hb with rfl
      obtain ⟨p, hpseen, hfp⟩ := hacc a ha
      intro hcontra
      apply h3
      have : p = ev.path := by
        apply relPathOf_injOn vault p ev.path (hseen p hpseen) hev
        rw [← hfp]
        simpa [Search.mkTextResult] using hcontra
      rwa [← this]
    · -- continue with extended seen set and accumulator
      refine ih (ev.path :: seen) _ ?_ hrest ?_ ?_
      · intro p hp
        rcases List.mem_cons.mp hp with rfl | hp
        · exact hev
        · exact hseen p hp
      · intro r hr
        rcases List.mem_append.mp hr with h | h
        · obtain ⟨p, hpseen, hfp⟩ := hacc r h
          exact ⟨p, List.mem_cons_of_mem _ hpseen, hfp⟩
        · rcases List.mem_singleton.mp h with rfl
          exact ⟨ev.path, List.mem_cons_self _ _, rfl⟩
      · refine List.pairwise_append.mpr ⟨hpair, List.pairwise_singleton _ _, ?_⟩
        intro a ha b hb
        rcases List.mem_singleton.mp hb with rfl
        obtain ⟨p, hpseen, hfp⟩ := hacc a ha
        intro hcontra
        apply h3
        have : p = ev.path := by
          apply relPathOf_injOn vault p ev.path (hseen p hpseen) hev
          rw [← hfp]
          simpa [Search.mkTextResult] using hcontra
        rwa [← this]

/-- C6: for every query and positive limit, lexical search returns no two
results sharing a `file_path`, every result comes from a match that passed
the optional path-substring filter, and at most `top_k` results are returned.
(All ripgrep match paths lie under the searched vault root.) -/
theorem c6_text_search_laws {Score : Type} (vault : String)
    (pc : Option String) (topK : Nat) (events : List Search.RgEvent)
    (h1 : 0 < topK)
    (h2 : ∀ ev ∈ events, (vault ++ "/").data.isPrefixOf ev.path.data) :
    (Search.textSearchRun Score vault pc topK events).length ≤ topK ∧
    (Search.textSearchRun Score vault pc topK events).Pairwise
      (fun a b => a.file_path ≠ b.file_path) ∧
    ∀ r ∈ Search.textSearchRun Score vault pc topK events, ∃ ev ∈ events,
      ev.eventType = "match" ∧ Search.pathFilterRejects pc ev.path = false ∧
      r = Search.mkTextResult Score vault ev := by
  refine ⟨?_, ?_, ?_⟩
  · exact textLoop_length vault pc topK events [] [] (by simpa using h1)
  · refine textLoop_pairwise vault pc topK events [] [] ?_ h2 ?_ ?_
    · intro p hp
      simp at hp
    · intro r hr
      simp at hr
    · exact List.Pairwise.nil
  · intro r hr
    rcases textLoop_source vault pc topK events [] [] r hr with h | h
    · simp at h
    · exact h

/-- C6 witness: three concrete match events (two in the same file) under a
path filter, with the laws instantiated. -/
theorem c6_text_search_laws_witness :
    (Search.textSearchRun Nat "/v/Obsidian-Private" (some "notes") 8
      [Concrete.rgEv1, Concrete.rgEv2, Concrete.rgEv3]).length ≤ 8 ∧
    (Search.textSearchRun Nat "/v/Obsidian-Private" (some "notes") 8
      [Concrete.rgEv1, Concrete.rgEv2, Concrete.rgEv3]).Pairwise
      (fun a b => a.file_path ≠ b.file_path) ∧
    ∀ r ∈ Search.textSearchRun Nat "/v/Obsidian-Private" (some "notes") 8
      [Concrete.rgEv1, Concrete.rgEv2, Concrete.rgEv3],
      ∃ ev ∈ [Concrete.rgEv1, Concrete.rgEv2, Concrete.rgEv3],
        ev.eventType = "match" ∧
        Search.pathFilterRejects (some "notes") ev.path = false ∧
        r = Search.mkTextResult Nat "/v/Obsidian-Private" ev :=
  c6_text_search_laws "/v/Obsidian-Private" (some "notes") 8
    [Concrete.rgEv1, Concrete.rgEv2, Concrete.rgEv3]
    (by decide) (by decide)

/-- Helper: a token window is a contiguous infix of the token stream. -/
theorem sliceAt_infixOf (tokens : List Nat) (maxT i : Nat) :
    Chunker.sliceAt tokens maxT i <:+: tokens :=
  ((List.take_prefix _ _).isInfix).trans ((List.drop_suffix _ _).isInfix)

/-- Helper: a token window holds at most `max_tokens` tokens. -/
theorem sliceAt_length_le (tokens : List Nat) (maxT i : Nat) :
    (Chunker.sliceAt tokens maxT i).length ≤ maxT := by
  simp only [Chunker.sliceAt, List.length_take, List.length_drop]
  omega

/-- Helper: every pair produced by the `_split_by_tokens` loop comes from a
token offset `i + m*(max_tokens - overlap_tokens)` inside the stream whose
stripped decoded window passes the character floor, and carries the
approximated line `start_line + offset / 10`. -/
theorem splitLoop_mem (tok : Chunker.Tokenizer) (cfg : Chunker.Config)
    (tokens : List Nat) (s : Nat) :
    ∀ fuel i x, x ∈ Chunker.splitLoop tok cfg tokens s fuel i →
      ∃ j, i ≤ j ∧ j < tokens.length ∧
        (∃ m, j = i + m * (cfg.maxTokens - cfg.overlapTokens)) ∧
        cfg.minChunkSize ≤
          (Chunker.pyStrip
            (tok.decode (Chunker.sliceAt tokens cfg.maxTokens j))).length ∧
        x = (tok.decode (Chunker.sliceAt tokens cfg.maxTokens j),
          s + j / 10) := by
  intro fuel
  induction fuel with
  | zero =>
    intro i x hx
    simp [Chunker.splitLoop] at hx
  | succ f ih =>
    intro i x hx
    simp only [Chunker.splitLoop] at hx
    by_cases hi : i < tokens.length
    · rw [if_pos hi] at hx
      by_cases hk : cfg.minChunkSize ≤
          (Chunker.pyStrip
            (tok.decode (Chunker.sliceAt tokens cfg.maxTokens i))).length
      · rw [if_pos hk] at hx
        rcases List.mem_cons.mp hx with rfl | hx
        · exact ⟨i, Nat.le_refl i, hi, ⟨0, by omega⟩, hk, rfl⟩
        · obtain ⟨j, hij, hjl, ⟨m, hm⟩, hmin, hxe⟩ := ih _ x hx
          refine ⟨j, by omega, hjl, ⟨m + 1, ?_⟩, hmin, hxe⟩
          rw [Nat.succ_mul]
          omega
      · rw [if_neg hk] at hx
        obtain ⟨j, hij, hjl, ⟨m, hm⟩, hmin, hxe⟩ := ih _ x hx
        refine ⟨j, by omega, hjl, ⟨m + 1, ?_⟩, hmin, hxe⟩
        rw [Nat.succ_mul]
        omega
    · rw [if_neg hi] at hx
      simp at hx

/-- Helper: every chunk emitted by `chunk_file` reports the vault-relative
path as its `file_path` and derives its `chunk_id` from its own
`(file_path, heading_path, start_line)` triple. -/
theorem chunkFile_chunk_id (tok : Chunker.Tokenizer)
    (hashHex16 : String → String) (yaml : String → Option Chunker.FmTags)
    (cfg : Chunker.Config) (rel raw : String) :
    ∀ c ∈ Chunker.chunkFile tok hashHex16 yaml cfg rel raw,
      c.file_path = rel ∧
      c.chunk_id =
        Chunker.generateChunkId hashHex16 c.file_path c.heading_path
          c.start_line := by
  intro c hc
  simp only [Chunker.chunkFile] at hc
  rcases List.mem_flatMap.mp hc with ⟨sec, _, hcs⟩
  simp only [Chunker.sectionChunks] at hcs
  split_ifs at hcs with h1 h2
  · rcases List.mem_singleton.mp hcs with rfl
    exact ⟨rfl, rfl⟩
  · simp at hcs
  · rcases List.mem_map.mp hcs with ⟨sub, _, rfl⟩
    exact ⟨rfl, rfl⟩

/-- C3: `chunk_id` is a pure, deterministic function of
`(file_path, heading_path, start_line)`: any two chunks — even from different
runs, tokenizers, configurations or contents — agreeing on the triple get the
same id, and chunking the same unchanged file twice yields the identical
chunk list (hence identical id sets and boundaries). -/
theorem c3_chunk_id_pure :
    (∀ (tok tok2 : Chunker.Tokenizer) (hashHex16 : String → String)
        (yaml yaml2 : String → Option Chunker.FmTags)
        (cfg cfg2 : Chunker.Config) (rel rel2 raw raw2 : String)
        (c c2 : Chunker.Chunk),
      c ∈ Chunker.chunkFile tok hashHex16 yaml cfg rel raw →
      c2 ∈ Chunker.chunkFile tok2 hashHex16 yaml2 cfg2 rel2 raw2 →
      c.file_path = c2.file_path → c.heading_path = c2.heading_path →
      c.start_line = c2.start_line → c.chunk_id = c2.chunk_id) ∧
    (∀ tok hashHex16 yaml cfg rel raw,
      Chunker.chunkFile tok hashHex16 yaml cfg rel raw =
        Chunker.chunkFile tok hashHex16 yaml cfg rel raw) := by
  constructor
  · intro tok tok2 hashHex16 yaml yaml2 cfg cfg2 rel rel2 raw raw2 c c2
      hc hc2 hf hh hs
    have h1 := (chunkFile_chunk_id tok hashHex16 yaml cfg rel raw c hc).2
    have h2 := (chunkFile_chunk_id tok2 hashHex16 yaml2 cfg2 rel2 raw2 c2 hc2).2
    rw [h1, h2, hf, hh, hs]
  · intro tok hashHex16 yaml cfg rel raw
    rfl

/-- C3 witness: two chunks from different runs (different tokenizer, config
and content) agreeing on the triple receive the same id. -/
theorem c3_chunk_id_pure_witness :
    Concrete.wChunkA.chunk_id = Concrete.wChunkB.chunk_id :=
  c3_chunk_id_pure.1 Concrete.charTok Concrete.pairTok Concrete.idHash
    Concrete.noYaml Concrete.noYaml
    { maxTokens := 8, overlapTokens := 2, minChunkSize := 3 }
    { maxTokens := 8, overlapTokens := 2, minChunkSize := 1 }
    "f.md" "f.md" "hello" "okay" Concrete.wChunkA Concrete.wChunkB
    (by decide) (by decide) rfl rfl rfl

/-- Helper: the character-list comparison used for sorting tags agrees with
the lexicographic string order. -/
theorem strRel_iff (a b : String) : (¬ b.data < a.data) ↔ a ≤ b := by
  rw [show (b.data < a.data ↔ b < a) from by rw [String.lt_iff_toList_lt]; rfl]
  exact not_lt

/-- C10: every chunk emitted from a file carries the identical tag list,
computed once per file: the union of the frontmatter-declared tags
(normalized with a `#` prefix) and all inline `#tags` of the whole document
body, deduplicated and sorted; the list is not restricted to the chunk's own
section. -/
theorem c10_tags_file_wide (tok : Chunker.Tokenizer)
    (hashHex16 : String → String) (yaml : String → Option Chunker.FmTags)
    (cfg : Chunker.Config) (rel raw : String) :
    (∀ c ∈ Chunker.chunkFile tok hashHex16 yaml cfg rel raw,
      c.tags =
        Chunker.extractTags (Chunker.parseFrontmatter yaml raw).2
          (Chunker.parseFrontmatter yaml raw).1) ∧
    List.Sorted (· ≤ ·)
      (Chunker.extractTags (Chunker.parseFrontmatter yaml raw).2
        (Chunker.parseFrontmatter yaml raw).1) ∧
    (Chunker.extractTags (Chunker.parseFrontmatter yaml raw).2
      (Chunker.parseFrontmatter yaml raw).1).Nodup ∧
    (∀ t, t ∈ Chunker.extractTags (Chunker.parseFrontmatter yaml raw).2
        (Chunker.parseFrontmatter yaml raw).1 ↔
      (t ∈ Chunker.fmTagList (Chunker.parseFrontmatter yaml raw).2 ∨
       t ∈ Chunker.inlineTags (Chunker.parseFrontmatter yaml raw).1.data)) := by
  refine ⟨?_, ?_, ?_, ?_⟩
  · intro c hc
    simp only [Chunker.chunkFile] at hc
    rcases List.mem_flatMap.mp hc with ⟨sec, _, hcs⟩
    simp only [Chunker.sectionChunks] at hcs
    split_ifs at hcs with h1 h2
    · rcases List.mem_singleton.mp hcs with rfl
      rfl
    · simp at hcs
    · rcases List.mem_map.mp hcs with ⟨sub, _, rfl⟩
      rfl
  · haveI ht : IsTotal String (fun a b => ¬ b.data < a.data) :=
      ⟨fun a b => by
        rcases le_total a b with h | h
        · exact Or.inl ((strRel_iff a b).mpr h)
        · exact Or.inr ((strRel_iff b a).mpr h)⟩
    haveI htr : IsTrans String (fun a b => ¬ b.data < a.data) :=
      ⟨fun a b c hab hbc =>
        (strRel_iff a c).mpr
          (le_trans ((strRel_iff a b).mp hab) ((strRel_iff b c).mp hbc))⟩
    exact (List.sorted_insertionSort _ _).imp fun h => (strRel_iff _ _).mp h
  · exact (List.perm_insertionSort _ _).symm.nodup (List.nodup_dedup _)
  · intro t
    unfold Chunker.extractTags
    rw [(List.perm_insertionSort _ _).mem_iff, List.mem_dedup, List.mem_append]

set_option maxRecDepth 8000 in
set_option maxHeartbeats 4000000 in
/-- C10 witness: the chunk of a concrete document with frontmatter tag `p`
and inline tag `#a` carries exactly the sorted deduplicated union
`["#a", "#p"]`. -/
theorem c10_tags_file_wide_witness :
    Concrete.wChunkC.tags =
      Chunker.extractTags
        (Chunker.parseFrontmatter Concrete.wYaml Concrete.wRawC).2
        (Chunker.parseFrontmatter Concrete.wYaml Concrete.wRawC).1 ∧
    Concrete.wChunkC.tags = ["#a", "#p"] := by
  have hmem : Concrete.wChunkC ∈ Chunker.chunkFile Concrete.charTok
      Concrete.idHash Concrete.wYaml
      { maxTokens := 8, overlapTokens := 2, minChunkSize := 3 }
      "f.md" Concrete.wRawC := by decide
  exact ⟨(c10_tags_file_wide Concrete.charTok Concrete.idHash Concrete.wYaml
      { maxTokens := 8, overlapTokens := 2, minChunkSize := 3 }
      "f.md" Concrete.wRawC).1 Concrete.wChunkC hmem,
    by decide⟩

/-- Helper: the one-token-per-character tokenizer re-encodes any decoded
window of one of its encodings to the same tokens. -/
theorem charTok_roundtrip : ∀ (s : String) (ts : List Nat),
    ts <:+: Concrete.charTok.encode s →
    Concrete.charTok.encode (Concrete.charTok.decode ts) = ts := by
  intro s ts hts
  have hmem : ∀ t ∈ ts, Char.toNat (Char.ofNat t) = t := by
    intro t ht
    have h2 : t ∈ s.data.map Char.toNat := hts.subset ht
    rcases List.mem_map.mp h2 with ⟨c, _, rfl⟩
    rw [Char.ofNat_toNat]
  show (String.mk (ts.map Char.ofNat)).data.map Char.toNat = ts
  rw [show (String.mk (ts.map Char.ofNat)).data = ts.map Char.ofNat from rfl,
    List.map_map]
  simpa using List.map_congr_left hmem

/-- C1 (amended): every whole-section chunk has
`min_chunk_size ≤ token_count ≤ max_tokens`; every token-split sub-chunk has
`token_count ≤ max_tokens` (its window holds at most `max_tokens` tokens,
recounted after a decode round-trip) but its floor is the *character* length
of its stripped text, so each emitted chunk satisfies
`min_chunk_size ≤ token_count` or `min_chunk_size ≤ len(text)`. -/
theorem c1_token_bounds_amended (tok : Chunker.Tokenizer)
    (hashHex16 : String → String) (yaml : String → Option Chunker.FmTags)
    (cfg : Chunker.Config) (rel raw : String)
    (hrt : ∀ (s : String) (ts : List Nat), ts <:+: tok.encode s →
      tok.encode (tok.decode ts) = ts) :
    ∀ c ∈ Chunker.chunkFile tok hashHex16 yaml cfg rel raw,
      c.token_count ≤ cfg.maxTokens ∧
      (cfg.minChunkSize ≤ c.token_count ∨
       cfg.minChunkSize ≤ c.text.length) := by
  intro c hc
  simp only [Chunker.chunkFile] at hc
  rcases List.mem_flatMap.mp hc with ⟨sec, _, hcs⟩
  simp only [Chunker.sectionChunks] at hcs
  split_ifs at hcs with h1 h2
  · rcases List.mem_singleton.mp hcs with rfl
    exact ⟨h1, Or.inl h2⟩
  · simp at hcs
  · rcases List.mem_map.mp hcs with ⟨sub, hsub, rfl⟩
    simp only [Chunker.splitByTokens] at hsub
    obtain ⟨j, _, hjl, _, hmin, hxe⟩ :=
      splitLoop_mem tok cfg (tok.encode sec.2.1) sec.2.2 _ 0 sub hsub
    subst hxe
    constructor
    · show Chunker.countTokens tok
        (tok.decode (Chunker.sliceAt (tok.encode sec.2.1) cfg.maxTokens j)) ≤
        cfg.maxTokens
      unfold Chunker.countTokens
      rw [hrt sec.2.1 _ (sliceAt_infixOf _ _ _)]
      exact sliceAt_length_le _ _ _
    · exact Or.inr hmin

/-- C1 witness: the amended bounds at a concrete single-section document. -/
theorem c1_token_bounds_amended_witness :
    Concrete.wChunkA.token_count ≤ 8 ∧
    (3 ≤ Concrete.wChunkA.token_count ∨ 3 ≤ Concrete.wChunkA.text.length) :=
  c1_token_bounds_amended Concrete.charTok Concrete.idHash Concrete.noYaml
    { maxTokens := 8, overlapTokens := 2, minChunkSize := 3 } "f.md" "hello"
    charTok_roundtrip Concrete.wChunkA (by decide)

/-- C1 counterexample: with a tokenizer whose tokens span two characters, an
oversized section is split into sub-chunks that are all emitted — their
stripped texts have at least `min_chunk_size = 3` characters — yet every
emitted sub-chunk's `token_count` is `2 < 3`, violating the claimed floor
`min_chunk_size ≤ token_count`. -/
theorem c1_floor_not_token_based :
    2 < (Concrete.pairTok.encode "abcdef").length ∧
    ((Chunker.chunkFile Concrete.pairTok Concrete.idHash Concrete.noYaml
        { maxTokens := 2, overlapTokens := 1, minChunkSize := 3 }
        "f.md" "abcdef").map fun c => c.token_count) = [2, 2] ∧
    ((Chunker.chunkFile Concrete.pairTok Concrete.idHash Concrete.noYaml
        { maxTokens := 2, overlapTokens := 1, minChunkSize := 3 }
        "f.md" "abcdef").map fun c => c.text.length) = [4, 4] ∧
    (2 : Nat) < 3 :=
  ⟨by decide, by decide, by decide, by decide⟩

/-- C9: a sub-chunk of an oversized section cut at token offset `i` records
`start_line = section_start + i / 10` (a token-count approximation, `i` a
multiple of `max_tokens - overlap_tokens`), its `end_line` adds the newline
count of the decoded window, and its `chunk_id` is derived from that
approximate start line. -/
theorem c9_sub_chunk_line_approx (tok : Chunker.Tokenizer)
    (hashHex16 : String → String) (cfg : Chunker.Config)
    (rel title para : String) (tags : List String) (hp st : String) (sl : Nat)
    (hover : cfg.maxTokens < Chunker.countTokens tok st) :
    ∀ c ∈ Chunker.sectionChunks tok hashHex16 cfg rel title para tags
        (hp, st, sl),
      ∃ i, i < (tok.encode st).length ∧
        (∃ m, i = m * (cfg.maxTokens - cfg.overlapTokens)) ∧
        c.start_line = sl + i / 10 ∧
        c.text =
          Chunker.pyStrip
            (tok.decode (Chunker.sliceAt (tok.encode st) cfg.maxTokens i)) ∧
        c.end_line = c.start_line +
          Chunker.countNewlines
            (tok.decode (Chunker.sliceAt (tok.encode st) cfg.maxTokens i)) ∧
        c.chunk_id =
          Chunker.generateChunkId hashHex16 rel hp c.start_line := by
  intro c hc
  simp only [Chunker.sectionChunks] at hc
  rw [if_neg (show ¬ Chunker.countTokens tok (hp, st, sl).2.1 ≤ cfg.maxTokens
    by simp only; omega)] at hc
  rcases List.mem_map.mp hc with ⟨sub, hsub, rfl⟩
  simp only [Chunker.splitByTokens] at hsub
  obtain ⟨j, _, hjl, ⟨m, hm⟩, hmin, hxe⟩ :=
    splitLoop_mem tok cfg (tok.encode st) sl _ 0 sub hsub
  subst hxe
  exact ⟨j, hjl, ⟨m, by omega⟩, rfl, rfl, rfl, rfl⟩

/-- C9 witness: the first sub-chunk of a concrete oversized section, with its
approximated line, text, end line and id. -/
theorem c9_sub_chunk_line_approx_witness :
    ∃ i, i < (Concrete.charTok.encode "abcde").length ∧
      (∃ m, i = m * (4 - 2)) ∧
      Concrete.wChunkE.start_line = 0 + i / 10 ∧
      Concrete.wChunkE.text =
        Chunker.pyStrip
          (Concrete.charTok.decode
            (Chunker.sliceAt (Concrete.charTok.encode "abcde") 4 i)) ∧
      Concrete.wChunkE.end_line = Concrete.wChunkE.start_line +
        Chunker.countNewlines
          (Concrete.charTok.decode
            (Chunker.sliceAt (Concrete.charTok.encode "abcde") 4 i)) ∧
      Concrete.wChunkE.chunk_id =
        Chunker.generateChunkId Concrete.idHash "f.md" "ROOT"
          Concrete.wChunkE.start_line :=
  c9_sub_chunk_line_approx Concrete.charTok Concrete.idHash
    { maxTokens := 4, overlapTokens := 2, minChunkSize := 1 }
    "f.md" "f" "UNKNOWN" [] "ROOT" "abcde" 0 (by decide)
    Concrete.wChunkE (by decide)

/-- Helper: adjacent pairs of a one-element list. -/
theorem adjPairs_single {α : Type} (x : α) : Chunker.adjPairs [x] = [] := rfl

/-- Helper: adjacent pairs of a two-or-more-element list. -/
theorem adjPairs_cons₂ {α : Type} (x y : α) (t : List α) :
    Chunker.adjPairs (x :: y :: t) = (x, y) :: Chunker.adjPairs (y :: t) := rfl

/-- Helper: when every visited window passes the size floor, a nonempty
`_split_by_tokens` loop result starts with the window at the entry offset. -/
theorem splitLoop_head (tok : Chunker.Tokenizer) (cfg : Chunker.Config)
    (tokens : List Nat) (s : Nat)
    (hpass : ∀ m : Nat,
      m * (cfg.maxTokens - cfg.overlapTokens) < tokens.length →
      cfg.minChunkSize ≤
        (Chunker.pyStrip (tok.decode (Chunker.sliceAt tokens cfg.maxTokens
          (m * (cfg.maxTokens - cfg.overlapTokens))))).length) :
    ∀ fuel i m0, i = m0 * (cfg.maxTokens - cfg.overlapTokens) →
      ∀ y t, Chunker.splitLoop tok cfg tokens s fuel i = y :: t →
        i < tokens.length ∧
        y = (tok.decode (Chunker.sliceAt tokens cfg.maxTokens i),
          s + i / 10) := by
  intro fuel i m0 him y t heq
  cases fuel with
  | zero => simp [Chunker.splitLoop] at heq
  | succ f =>
    simp only [Chunker.splitLoop] at heq
    by_cases hi : i < tokens.length
    · rw [if_pos hi] at heq
      rw [if_pos (by rw [him]; exact hpass m0 (him ▸ hi))] at heq
      injection heq with h1 _
      exact ⟨hi, h1.symm⟩
    · rw [if_neg hi] at heq
      cases heq

/-- Helper: when every visited window passes the size floor, adjacent entries
of the `_split_by_tokens` loop output sit at consecutive offsets
`j` and `j + (max_tokens - overlap_tokens)`. -/
theorem splitLoop_adj (tok : Chunker.Tokenizer) (cfg : Chunker.Config)
    (tokens : List Nat) (s : Nat)
    (hpass : ∀ m : Nat,
      m * (cfg.maxTokens - cfg.overlapTokens) < tokens.length →
      cfg.minChunkSize ≤
        (Chunker.pyStrip (tok.decode (Chunker.sliceAt tokens cfg.maxTokens
          (m * (cfg.maxTokens - cfg.overlapTokens))))).length) :
    ∀ fuel i m0, i = m0 * (cfg.maxTokens - cfg.overlapTokens) →
      ∀ p ∈ Chunker.adjPairs (Chunker.splitLoop tok cfg tokens s fuel i),
        ∃ j, j < tokens.length ∧
          j + (cfg.maxTokens - cfg.overlapTokens) < tokens.length ∧
          p.1 = (tok.decode (Chunker.sliceAt tokens cfg.maxTokens j),
            s + j / 10) ∧
          p.2 = (tok.decode (Chunker.sliceAt tokens cfg.maxTokens
              (j + (cfg.maxTokens - cfg.overlapTokens))),
            s + (j + (cfg.maxTokens - cfg.overlapTokens)) / 10) := by
  intro fuel
  induction fuel with
  | zero =>
    intro i m0 him p hp
    simp [Chunker.splitLoop, Chunker.adjPairs] at hp
  | succ f ih =>
    intro i m0 him p hp
    simp only [Chunker.splitLoop] at hp
    by_cases hi : i < tokens.length
    · rw [if_pos hi] at hp
      rw [if_pos (by rw [him]; exact hpass m0 (him ▸ hi))] at hp
      cases hrest : Chunker.splitLoop tok cfg tokens s f
          (i + (cfg.maxTokens - cfg.overlapTokens)) with
      | nil =>
        rw [hrest, adjPairs_single] at hp
        cases hp
      | cons y t =>
        rw [hrest, adjPairs_cons₂] at hp
        rcases List.mem_cons.mp hp with rfl | hp
        · obtain ⟨hlt, hy⟩ := splitLoop_head tok cfg tokens s hpass f
            (i + (cfg.maxTokens - cfg.overlapTokens)) (m0 + 1)
            (by rw [Nat.succ_mul]; omega) y t hrest
          exact ⟨i, hi, hlt, rfl, by rw [hy]⟩
        · rw [← hrest] at hp
          exact ih (i + (cfg.maxTokens - cfg.overlapTokens)) (m0 + 1)
            (by rw [Nat.succ_mul]; omega) p hp
    · rw [if_neg hi] at hp
      simp [Chunker.adjPairs] at hp

/-- Helper: two windows at consecutive offsets share exactly the
`overlap_tokens` trailing/leading token positions when the earlier window is
full. -/
theorem shares_of_full_window (tokens : List Nat) (maxT ov j : Nat)
    (hov : ov < maxT) (hfull : j + maxT ≤ tokens.length) :
    Chunker.SharesTokens (Chunker.sliceAt tokens maxT j)
      (Chunker.sliceAt tokens maxT (j + (maxT - ov))) ov := by
  have hlen1 : (Chunker.sliceAt tokens maxT j).length = maxT := by
    simp only [Chunker.sliceAt, List.length_take, List.length_drop]
    omega
  have hlen2 : ov ≤ (Chunker.sliceAt tokens maxT (j + (maxT - ov))).length := by
    simp only [Chunker.sliceAt, List.length_take, List.length_drop]
    omega
  refine ⟨ov, le_refl ov, by omega, hlen2, ?_⟩
  rw [hlen1]
  show ((tokens.drop j).take maxT).drop (maxT - ov) =
    ((tokens.drop (j + (maxT - ov))).take maxT).take ov
  rw [List.drop_take, List.drop_drop, List.take_take]
  congr 1
  omega

/-- Helper: one kept iteration of the `_split_by_tokens` loop. -/
theorem splitLoop_step (tok : Chunker.Tokenizer) (cfg : Chunker.Config)
    (tokens : List Nat) (s fuel i : Nat) (hi : i < tokens.length)
    (hk : cfg.minChunkSize ≤
      (Chunker.pyStrip
        (tok.decode (Chunker.sliceAt tokens cfg.maxTokens i))).length) :
    Chunker.splitLoop tok cfg tokens s (fuel + 1) i =
      (tok.decode (Chunker.sliceAt tokens cfg.maxTokens i), s + i / 10) ::
        Chunker.splitLoop tok cfg tokens s fuel
          (i + (cfg.maxTokens - cfg.overlapTokens)) := by
  simp only [Chunker.splitLoop]
  rw [if_pos hi, if_pos hk]

/-- Helper: the `_split_by_tokens` loop stops past the end of the stream. -/
theorem splitLoop_stop (tok : Chunker.Tokenizer) (cfg : Chunker.Config)
    (tokens : List Nat) (s fuel i : Nat) (hi : ¬ i < tokens.length) :
    Chunker.splitLoop tok cfg tokens s (fuel + 1) i = [] := by
  simp only [Chunker.splitLoop]
  rw [if_neg hi]

/-- Helper: stripping a repeated non-whitespace character changes nothing. -/
theorem pyStrip_replicate (k : Nat) (c : Char) (hc : c.isWhitespace = false) :
    Chunker.pyStrip (String.mk (List.replicate k c)) =
      String.mk (List.replicate k c) := by
  have hdw : ∀ n, (List.replicate n c).dropWhile Char.isWhitespace =
      List.replicate n c := by
    intro n
    cases n with
    | zero => rfl
    | succ m => simp [List.replicate_succ, List.dropWhile_cons, hc]
  simp only [Chunker.pyStrip]
  rw [hdw, List.reverse_replicate, hdw, List.reverse_replicate]

/-- Helper: the character tokenizer encodes a repeated-`'a'` string to
repeated token 97. -/
theorem charTok_encode_replicate (k : Nat) :
    Concrete.charTok.encode (String.mk (List.replicate k 'a')) =
      List.replicate k 97 := by
  show (String.mk (List.replicate k 'a')).data.map Char.toNat = _
  rw [show (String.mk (List.replicate k 'a')).data = List.replicate k 'a'
    from rfl, List.map_replicate, show 'a'.toNat = 97 from rfl]

/-- Helper: the character tokenizer decodes repeated token 97 to a
repeated-`'a'` string. -/
theorem charTok_decode_replicate (k : Nat) :
    Concrete.charTok.decode (List.replicate k 97) =
      String.mk (List.replicate k 'a') := by
  show String.mk ((List.replicate k 97).map Char.ofNat) = _
  rw [List.map_replicate]

/-- Helper: the 2000-token single-section document of Scenario C is split
into exactly three windows of 800, 800 and 640 tokens at offsets 0, 680 and
1360, with approximated lines 0, 68 and 136. -/
theorem scenC_eval :
    Chunker.splitByTokens Concrete.charTok Concrete.defaultCfg
      Concrete.scenCText 0 =
    [(String.mk (List.replicate 800 'a'), 0),
     (String.mk (List.replicate 800 'a'), 68),
     (String.mk (List.replicate 640 'a'), 136)] := by
  have henc : Concrete.charTok.encode Concrete.scenCText =
      List.replicate 2000 97 := charTok_encode_replicate 2000
  have hdec : ∀ i, Concrete.charTok.decode
      (Chunker.sliceAt (List.replicate 2000 97) 800 i) =
      String.mk (List.replicate (min 800 (2000 - i)) 'a') := by
    intro i
    rw [show Chunker.sliceAt (List.replicate 2000 97) 800 i =
        List.replicate (min 800 (2000 - i)) 97 by
      simp only [Chunker.sliceAt, List.drop_replicate, List.take_replicate]]
    exact charTok_decode_replicate _
  have hk : ∀ i, 50 ≤ min 800 (2000 - i) →
      Concrete.defaultCfg.minChunkSize ≤
        (Chunker.pyStrip (Concrete.charTok.decode
          (Chunker.sliceAt (List.replicate 2000 97)
            Concrete.defaultCfg.maxTokens i))).length := by
    intro i hi
    show 50 ≤ (Chunker.pyStrip (Concrete.charTok.decode
      (Chunker.sliceAt (List.replicate 2000 97) 800 i))).length
    rw [hdec i, pyStrip_replicate _ 'a' (by decide)]
    show 50 ≤ (List.replicate (min 800 (2000 - i)) 'a').length
    rw [List.length_replicate]
    exact hi
  have hlen : (List.replicate 2000 (97 : Nat)).length = 2000 :=
    List.length_replicate ..
  have h680 : 0 + (Concrete.defaultCfg.maxTokens -
      Concrete.defaultCfg.overlapTokens) = 680 := rfl
  have h1360 : 680 + (Concrete.defaultCfg.maxTokens -
      Concrete.defaultCfg.overlapTokens) = 1360 := rfl
  have h2040 : 1360 + (Concrete.defaultCfg.maxTokens -
      Concrete.defaultCfg.overlapTokens) = 2040 := rfl
  simp only [Chunker.splitByTokens, henc, hlen]
  rw [show (2000 : Nat) = 1999 + 1 from rfl,
    splitLoop_step _ _ _ _ _ _ (by rw [hlen]; norm_num) (hk 0 (by norm_num)),
    h680,
    show (1999 : Nat) = 1998 + 1 from rfl,
    splitLoop_step _ _ _ _ _ _ (by rw [hlen]; norm_num) (hk 680 (by norm_num)),
    h1360,
    show (1998 : Nat) = 1997 + 1 from rfl,
    splitLoop_step _ _ _ _ _ _ (by rw [hlen]; norm_num)
      (hk 1360 (by norm_num)),
    h2040,
    show (1997 : Nat) = 1996 + 1 from rfl,
    splitLoop_stop _ _ _ _ _ _ (by rw [hlen]; norm_num)]
  simp only [show Concrete.defaultCfg.maxTokens = 800 from rfl, hdec]
  norm_num

/-- C5 (amended): when no window of an oversized section is dropped by the
character floor, adjacent sub-chunks whose earlier window is full (exactly
`max_tokens` tokens) share at least `overlap_tokens` tokens of content — the
final window may be truncated below `max_tokens`, in which case the last
adjacent pair can share fewer.  In particular, Scenario C holds exactly: a
single 2000-token section with `max_tokens=800, overlap_tokens=120` yields 3
sub-chunks of 800, 800 and 640 tokens, each adjacent pair sharing at least
120 tokens. -/
theorem c5_overlap_amended :
    (∀ (tok : Chunker.Tokenizer) (cfg : Chunker.Config) (text : String)
        (sl : Nat),
      (∀ (s : String) (ts : List Nat), ts <:+: tok.encode s →
        tok.encode (tok.decode ts) = ts) →
      (∀ m : Nat, m * (cfg.maxTokens - cfg.overlapTokens) <
          (tok.encode text).length →
        cfg.minChunkSize ≤
          (Chunker.pyStrip (tok.decode (Chunker.sliceAt (tok.encode text)
            cfg.maxTokens
            (m * (cfg.maxTokens - cfg.overlapTokens))))).length) →
      cfg.overlapTokens < cfg.maxTokens →
      ∀ p ∈ Chunker.adjPairs (Chunker.splitByTokens tok cfg text sl),
        (tok.encode p.1.1).length = cfg.maxTokens →
        Chunker.SharesTokens (tok.encode p.1.1) (tok.encode p.2.1)
          cfg.overlapTokens) ∧
    ((Chunker.splitByTokens Concrete.charTok Concrete.defaultCfg
        Concrete.scenCText 0).map
      (fun q => (Concrete.charTok.encode q.1).length) = [800, 800, 640] ∧
     ∀ p ∈ Chunker.adjPairs (Chunker.splitByTokens Concrete.charTok
        Concrete.defaultCfg Concrete.scenCText 0),
       Chunker.SharesTokens (Concrete.charTok.encode p.1.1)
         (Concrete.charTok.encode p.2.1) 120) := by
  refine ⟨?_, ?_, ?_⟩
  · intro tok cfg text sl hrt hpass hov p hp hfull
    simp only [Chunker.splitByTokens] at hp
    obtain ⟨j, hj, hjs, hp1, hp2⟩ :=
      splitLoop_adj tok cfg (tok.encode text) sl hpass _ 0 0
        (by rw [Nat.zero_mul]) p hp
    have e1 : tok.encode p.1.1 =
        Chunker.sliceAt (tok.encode text) cfg.maxTokens j := by
      rw [hp1]
      exact hrt text _ (sliceAt_infixOf _ _ _)
    have e2 : tok.encode p.2.1 =
        Chunker.sliceAt (tok.encode text) cfg.maxTokens
          (j + (cfg.maxTokens - cfg.overlapTokens)) := by
      rw [hp2]
      exact hrt text _ (sliceAt_infixOf _ _ _)
    rw [e1, e2]
    apply shares_of_full_window _ _ _ _ hov
    rw [e1] at hfull
    simp only [Chunker.sliceAt, List.length_take, List.length_drop] at hfull
    omega
  · rw [scenC_eval]
    simp only [List.map, charTok_encode_replicate, List.length_replicate]
  · intro p hp
    rw [scenC_eval, adjPairs_cons₂, adjPairs_cons₂, adjPairs_single] at hp
    rcases List.mem_cons.mp hp with rfl | hp
    · show Chunker.SharesTokens
        (Concrete.charTok.encode (String.mk (List.replicate 800 'a')))
        (Concrete.charTok.encode (String.mk (List.replicate 800 'a'))) 120
      simp only [charTok_encode_replicate]
      refine ⟨120, le_refl 120, ?_, ?_, ?_⟩
      · rw [List.length_replicate]
        norm_num
      · rw [List.length_replicate]
        norm_num
      · rw [List.length_replicate, List.drop_replicate, List.take_replicate]
        norm_num
    · rcases List.mem_cons.mp hp with rfl | hp
      · show Chunker.SharesTokens
          (Concrete.charTok.encode (String.mk (List.replicate 800 'a')))
          (Concrete.charTok.encode (String.mk (List.replicate 640 'a'))) 120
        simp only [charTok_encode_replicate]
        refine ⟨120, le_refl 120, ?_, ?_, ?_⟩
        · rw [List.length_replicate]
          norm_num
        · rw [List.length_replicate]
          norm_num
        · rw [List.length_replicate, List.drop_replicate, List.take_replicate]
          norm_num
      · cases hp

/-- C5 witness: the amended overlap law at a concrete oversized section. -/
theorem c5_overlap_amended_witness :
    Chunker.SharesTokens (Concrete.charTok.encode "abcd")
      (Concrete.charTok.encode "cde") 2 :=
  c5_overlap_amended.1 Concrete.charTok
    { maxTokens := 4, overlapTokens := 2, minChunkSize := 1 } "abcde" 0
    charTok_roundtrip
    (by
      intro m hm
      have hm2 : m ≤ 2 := by
        have : m * 2 < 5 := by simpa using hm
        omega
      interval_cases m <;> decide)
    (by norm_num) (("abcd", 0), ("cde", 0)) (by decide) (by decide)

/-- C5 counterexample: an oversized 5-token section split with
`max_tokens=4, overlap_tokens=2, min_chunk_size=1` keeps three sub-chunks,
and the final adjacent pair — whose second window is truncated — shares at
most one token, fewer than `overlap_tokens = 2`. -/
theorem c5_truncated_overlap_counterexample :
    4 < (Concrete.charTok.encode "abcde").length ∧
    Chunker.splitByTokens Concrete.charTok
      { maxTokens := 4, overlapTokens := 2, minChunkSize := 1 } "abcde" 0 =
      [("abcd", 0), ("cde", 0), ("e", 0)] ∧
    (("cde", 0), ("e", 0)) ∈ Chunker.adjPairs (Chunker.splitByTokens
      Concrete.charTok
      { maxTokens := 4, overlapTokens := 2, minChunkSize := 1 } "abcde" 0) ∧
    ¬ Chunker.SharesTokens (Concrete.charTok.encode "cde")
      (Concrete.charTok.encode "e") 2 := by
  refine ⟨by decide, by decide, by decide, ?_⟩
  rintro ⟨k, h2k, _, hkb, _⟩
  have h1 : (Concrete.charTok.encode "e").length = 1 := by decide
  omega
